import Mathlib

/-!
# Verification of the nexus_otl F-Engine packet-stream collation engine

Shallow embedding of `src/nexus_otl/server.py` (the packet-stream collation
and frequency-band mapping engine) and proofs of the specification claims.

Conventions of the embedding:
* Python integers read off the hardware are modelled as `Int`; Python's `%`
  with a nonzero divisor agrees with `Int.emod` on the `= 0` test (both are
  equivalent to divisibility), and the `int(width / n)` in the success branch
  of the finalizer is an exact integer whenever the divisibility check has
  passed, so it is modelled as `Int` division.  The divisor-zero case, where
  Python raises `ZeroDivisionError`, is excluded by explicit hypotheses.
* Python float arithmetic in the frequency mapper is modelled over `ℚ`;
  the specification fixes the numeric semantics as real-valued arithmetic.
* A Python function that may return `None` or raise is modelled with
  `Option` / `Except`.
* The Python `dict` comprehensions and `dict` iteration (insertion-ordered)
  are modelled as association lists in the same order.
-/

namespace NexusOtl

/-- One hardware header record as yielded by `feng._read_headers()`
(`server.py` lines 119-131 read the fields `valid`, `first`, `dest`,
`chans`, `n_chans`, `is_8_bit` of each record). -/
structure Header where
  valid : Bool
  first : Bool
  dest : String
  chans : Int
  n_chans : Int
  is_8_bit : Bool
deriving DecidableEq, Repr

/-- `FEnginePacketDestinationDetail` (`server.py` lines 60-66): an
in-progress run of same-destination first-headers (the spec's
`StreamSegment`; `end_chan` is the spec's `last_seen_channel`). -/
structure FEnginePacketDestinationDetail where
  destination_ip : String
  start_chan : Int
  end_chan : Int
  packet_nchan : Int
  is_8bit : Bool
deriving DecidableEq, Repr

/-- `ChannelSubbandDestinationDetail` (`server.py` lines 52-57): a finalized
channel subband. -/
structure ChannelSubbandDestinationDetail where
  destination_ip : String
  start : Int
  stop : Int
  nof_packet_streams : Int
deriving DecidableEq, Repr

/-- The payload of the `RuntimeError` raised at `server.py` lines 140-144:
the host (unit identifier), the two operands of the divisibility check, and
the non-integer quotient (a Python float, modelled exactly in `ℚ`). -/
structure CollationError where
  host : String
  strm_nchans : Int
  packet_nchan : Int
  n_strm : ℚ
deriving DecidableEq, Repr

/-- Opening a new stream segment from a header record (`server.py` lines
125-133): `start_chan = end_chan = chans`, `packet_nchan = n_chans`. -/
def newDetail (h : Header) : FEnginePacketDestinationDetail :=
  { destination_ip := h.dest
    start_chan := h.chans
    end_chan := h.chans
    packet_nchan := h.n_chans
    is_8bit := h.is_8_bit }

/-- One iteration of the merger loop at `server.py` lines 119-133.  The
Python code appends to / mutates the tail of `strm_details`; here the
accumulator keeps the details in reverse order (most recent run first) and
`mergeHeaders` reverses at the end, so `strm_details[-1]` is the head. -/
def mergeStep (acc : List FEnginePacketDestinationDetail) (h : Header) :
    List FEnginePacketDestinationDetail :=
  if h.valid && h.first then
    match acc with
    | last :: closed =>
      if last.destination_ip = h.dest then
        { last with end_chan := h.chans } :: closed
      else
        newDetail h :: last :: closed
    | [] => [newDetail h]
  else acc

/-- The stream merger (`server.py` lines 118-133): fold the header sequence
of one interface into the run list `strm_details`. -/
def mergeHeaders (hs : List Header) : List FEnginePacketDestinationDetail :=
  (hs.foldl mergeStep []).reverse

/-- The subband the finalizer emits for a segment in its success branch
(`server.py` lines 146-153). -/
def subbandOf (d : FEnginePacketDestinationDetail) :
    ChannelSubbandDestinationDetail :=
  { destination_ip := d.destination_ip
    start := d.start_chan
    stop := d.end_chan + d.packet_nchan
    nof_packet_streams := (d.end_chan + d.packet_nchan - d.start_chan) / d.packet_nchan }

/-- The stream finalizer / validator for one segment (`server.py` lines
135-153): compute `strm_end_chan`, `strm_nchans`, `n_strm`; raise a
`RuntimeError` carrying host, operands and quotient when the width is not a
multiple of `packet_nchan`, otherwise emit the subband.  `int(n_strm)` is an
exact integer in the success branch and is modelled as `Int` division. -/
def finalizeDetail (host : String) (d : FEnginePacketDestinationDetail) :
    Except CollationError ChannelSubbandDestinationDetail :=
  let strm_end_chan := d.end_chan + d.packet_nchan
  let strm_nchans := strm_end_chan - d.start_chan
  let n_strm : ℚ := (strm_nchans : ℚ) / (d.packet_nchan : ℚ)
  if strm_nchans % d.packet_nchan ≠ 0 then
    .error { host := host, strm_nchans := strm_nchans
             packet_nchan := d.packet_nchan, n_strm := n_strm }
  else
    .ok { destination_ip := d.destination_ip
          start := d.start_chan
          stop := strm_end_chan
          nof_packet_streams := strm_nchans / d.packet_nchan }

/-- The finalizer loop at `server.py` lines 135-153: finalize the runs in
order; the first failure propagates as the raised exception. -/
def mapFinalize (host : String) :
    List FEnginePacketDestinationDetail →
      Except CollationError (List ChannelSubbandDestinationDetail)
  | [] => .ok []
  | d :: ds =>
    match finalizeDetail host d with
    | .error e => .error e
    | .ok s =>
      match mapFinalize host ds with
      | .error e => .error e
      | .ok ss => .ok (s :: ss)

/-- The merger-plus-finalizer pipeline for the header sequence of one
enabled interface (`server.py` lines 118-153). -/
def collateInterface (host : String) (hs : List Header) :
    Except CollationError (List ChannelSubbandDestinationDetail) :=
  mapFinalize host (mergeHeaders hs)

/-- The per-band frequency computation of `_get_antenna_tuning_band_info`
(`server.py` lines 229-256), with the unit's calibration constants as
parameters: `fenchan` is `fengine_meta["FENCHAN"]` (total channel count),
`foff` is `fengine_meta["FOFF"]` (channel bandwidth), `lo_obsfreq` the
tuning's sky frequency.  Python float arithmetic is modelled over `ℚ`
(`0.5` is exact).  Returns `(frequency_start, frequency_stop)`. -/
def bandFrequencies (fenchan foff lo_obsfreq : ℚ)
    (chanband : ChannelSubbandDestinationDetail) : ℚ × ℚ :=
  let fengine_center_chan := fenchan / 2
  let chanband_width : ℚ := ((chanband.stop - chanband.start : Int) : ℚ)
  let band_center_chan := chanband_width / 2 + (chanband.start : ℚ) + 0.5
  let band_center_freq :=
    lo_obsfreq + (band_center_chan - fengine_center_chan - 0.5) * foff
  (band_center_freq - foff * chanband_width / 2,
   band_center_freq + foff * chanband_width / 2)

/-- A Python scalar value as emitted by the server: `str`, `bool`, `int` or
`float` (the float payload is irrelevant to the tagger and modelled as `ℚ`). -/
inductive PyValue where
  | str (s : String)
  | bool (b : Bool)
  | int (i : Int)
  | float (q : ℚ)
deriving DecidableEq, Repr

/-- Python's `isinstance(v, str)`. -/
def isinstanceStr : PyValue → Bool
  | .str _ => true
  | _ => false

/-- Python's `isinstance(v, bool)`. -/
def isinstanceBool : PyValue → Bool
  | .bool _ => true
  | _ => false

/-- Python's `isinstance(v, int)`: `bool` is a subclass of `int` in Python,
so booleans also satisfy this test. -/
def isinstanceInt : PyValue → Bool
  | .bool _ => true
  | .int _ => true
  | _ => false

/-- The numeric value of a Python `int` (with `True = 1`, `False = 0` for
the `bool` subclass). -/
def pyIntVal : PyValue → Int
  | .int i => i
  | .bool b => if b then 1 else 0
  | _ => 0

/-- `_value_type` (`server.py` lines 311-320), with the `isinstance` chain
transcribed in source order: `str`, then `bool`, then `int` (sign split),
else `f64`. -/
def _value_type (v : PyValue) : String :=
  if isinstanceStr v then "string"
  else if isinstanceBool v then "u32"
  else if isinstanceInt v then (if pyIntVal v < 0 then "i64" else "u64")
  else "f64"

/-- `AntLo` (`server.py` lines 43-49): the (antenna, tuning) pair naming a
hardware unit. -/
structure AntLo where
  antenna_name : String
  lo_id : String
deriving DecidableEq, Repr

/-- The observable state of one network interface of a unit, as read through
the external `casperfpga` transport: the `eth%d_ctrl` register (`none`
models a `KatcpRequestFail`) and the header sequence (`none` models a
`KatcpRequestFail` on the header query). -/
structure InterfaceState where
  ctrl : Option Nat
  headers : Option (List Header)
deriving DecidableEq, Repr

/-- One hardware channelizer unit handle (`feng`): host name, per-interface
observable state, the calibration constants `FENCHAN`/`FOFF` that the
external `hpguppi_defaults.fengine_meta_key_values` collaborator reports for
it, and its transport connection state (`disconnect_fails` models a
transport whose disconnect raises). -/
structure FengUnit where
  host : String
  interfaces : List InterfaceState
  fenchan : ℚ
  foff : ℚ
  connected : Bool
  disconnect_fails : Bool
deriving DecidableEq, Repr

/-- The enabled flag of one interface
(`(feng.fpga.read_uint("eth%d_ctrl") & 0x00000002) != 0`, `server.py`
lines 92-94); `false` when the register cannot be read (that case is
handled separately by `readEnabledFlags`). -/
def enabledBool (i : InterfaceState) : Bool :=
  match i.ctrl with
  | some c => (c &&& 2) != 0
  | none => false

/-- The first loop of `read_chan_dest_ips` (`server.py` lines 89-97): read
the `eth%d_ctrl` register of every interface in order; if any read fails,
the whole unit is unavailable (`none`). -/
def readEnabledFlags : List InterfaceState → Option (List (InterfaceState × Bool))
  | [] => some []
  | i :: rest =>
    match i.ctrl with
    | none => none
    | some c => (readEnabledFlags rest).map (fun l => (i, (c &&& 2) != 0) :: l)

/-- The second loop of `read_chan_dest_ips` (`server.py` lines 103-153):
skip disabled interfaces; a failed header query returns `None`
(unavailable); otherwise run the merger-plus-finalizer pipeline, letting a
`RuntimeError` propagate and accumulating the subbands of the enabled
interfaces in order. -/
def readChanGo (host : String) :
    List (InterfaceState × Bool) → List ChannelSubbandDestinationDetail →
      Except CollationError (Option (List ChannelSubbandDestinationDetail))
  | [], acc => .ok (some acc)
  | (i, enabled) :: rest, acc =>
    if enabled then
      match i.headers with
      | none => .ok none
      | some hs =>
        match collateInterface host hs with
        | .error e => .error e
        | .ok subs => readChanGo host rest (acc ++ subs)
    else readChanGo host rest acc

/-- `read_chan_dest_ips` (`server.py` lines 88-155): `.ok none` models the
Python `return None` (unit unavailable), `.ok (some [])` the all-disabled
early return, `.error` the raised `RuntimeError`. -/
def read_chan_dest_ips (u : FengUnit) :
    Except CollationError (Option (List ChannelSubbandDestinationDetail)) :=
  match readEnabledFlags u.interfaces with
  | none => .ok none
  | some flagged =>
    if flagged.all (fun p => !p.2) then .ok (some [])
    else readChanGo u.host flagged []

/-- The subband list `read_chan_dest_ips` reports for a unit when it does
not raise (`none` both for an unavailable unit and, degenerately, on the
error path, which callers of this projection exclude). -/
def detailsOf (u : FengUnit) : Option (List ChannelSubbandDestinationDetail) :=
  match read_chan_dest_ips u with
  | .ok r => r
  | .error _ => none

/-- Stable insertion into a `start`-sorted subband list (auxiliary to
`sortByStart`). -/
def insertByStart (cb : ChannelSubbandDestinationDetail) :
    List ChannelSubbandDestinationDetail → List ChannelSubbandDestinationDetail
  | [] => [cb]
  | y :: ys =>
    if cb.start ≤ y.start then cb :: y :: ys else y :: insertByStart cb ys

/-- `chanband_details.sort(key=lambda csdd: csdd.start)` (`server.py` line
236): a stable sort by `start`, modelled as insertion sort (Python's sort is
also stable). -/
def sortByStart : List ChannelSubbandDestinationDetail →
    List ChannelSubbandDestinationDetail
  | [] => []
  | x :: xs => insertByStart x (sortByStart xs)

/-- One row of the emitted band table (the spec's `FrequencyBand`): the
`channel_start`/`channel_stop`/`address`/`frequency_start`/`frequency_stop`
entries written at `server.py` lines 239-256 for one band index. -/
structure FrequencyBand where
  channel_start : Int
  channel_stop : Int
  address : String
  frequency_start : ℚ
  frequency_stop : ℚ
deriving DecidableEq, Repr

/-- The band table of one unit (`server.py` lines 236-256): sort the
subbands by `start`, then map each to its `FrequencyBand` row (the table's
`len` entry is the list length). -/
def bandTable (fenchan foff lo_obsfreq : ℚ)
    (subs : List ChannelSubbandDestinationDetail) : List FrequencyBand :=
  (sortByStart subs).map (fun cb =>
    { channel_start := cb.start
      channel_stop := cb.stop
      address := cb.destination_ip
      frequency_start := (bandFrequencies fenchan foff lo_obsfreq cb).1
      frequency_stop := (bandFrequencies fenchan foff lo_obsfreq cb).2 })

/-- The dict comprehension at `server.py` lines 214-216: query every unit in
order; an exception raised by `read_chan_dest_ips` propagates immediately
(no per-unit handling) and the remaining units are not queried. -/
def collectChanbandDetails :
    List (AntLo × FengUnit) →
      Except CollationError
        (List ((AntLo × FengUnit) × Option (List ChannelSubbandDestinationDetail)))
  | [] => .ok []
  | p :: rest =>
    match read_chan_dest_ips p.2 with
    | .error e => .error e
    | .ok r =>
      match collectChanbandDetails rest with
      | .error e => .error e
      | .ok l => .ok ((p, r) :: l)

/-- The per-unit output of the band-info loop body (`server.py` lines
219-256): `none` (the `continue` at line 221) for an unavailable unit,
otherwise the unit's band table keyed by its `AntLo`. -/
def bandEntry (tuning_map_freq : String → ℚ) (p : AntLo × FengUnit)
    (r : Option (List ChannelSubbandDestinationDetail)) :
    Option (AntLo × List FrequencyBand) :=
  r.map (fun subs =>
    (p.1, bandTable p.2.fenchan p.2.foff (tuning_map_freq p.1.lo_id) subs))

/-- `_get_antenna_tuning_band_info` (`server.py` lines 210-258): collect the
per-unit subband queries (a raised `RuntimeError` aborts the whole call),
then emit a band table for every available unit, skipping `None` entries. -/
def _get_antenna_tuning_band_info (units : List (AntLo × FengUnit))
    (tuning_map_freq : String → ℚ) :
    Except CollationError (List (AntLo × List FrequencyBand)) :=
  match collectChanbandDetails units with
  | .error e => .error e
  | .ok l => .ok (l.filterMap (fun q => bandEntry tuning_map_freq q.1 q.2))

/-- The raw transport disconnect (`feng.fpga.disconnect()`), which may
itself fail. -/
def fpga_disconnect (u : FengUnit) : Except String FengUnit :=
  if u.disconnect_fails then .error "KatcpRequestFail"
  else .ok { u with connected := false }

/-- `_disconnect_fengines` (`server.py` lines 158-165): attempt to
disconnect every unit in the map, swallowing any per-unit failure
(`except Exception: pass`), so the function is total and always processes
the whole map. -/
def _disconnect_fengines (units : List (AntLo × FengUnit)) :
    List (AntLo × FengUnit) :=
  units.map (fun p =>
    match fpga_disconnect p.2 with
    | .error _ => p
    | .ok u2 => (p.1, u2))

/-- The effect of the teardown on one unit, stated in closed form: a unit
whose transport disconnect fails is left as-is (the exception is swallowed),
every other unit ends up disconnected. -/
def tearDownOne (p : AntLo × FengUnit) : AntLo × FengUnit :=
  (p.1, if p.2.disconnect_fails then p.2 else { p.2 with connected := false })

/-- The `try/finally` of `get_observatory` (`server.py` lines 277-292)
around the F-Engine queries: the first component is the outcome of the body
(the band-info collection, whose exception propagates to the caller), the
second the state of the hardware connections afterwards; pairing the two
encodes that the `finally` teardown runs on the success path and on every
exception path alike. -/
def get_observatory_bands (units : List (AntLo × FengUnit))
    (tuning_map_freq : String → ℚ) :
    Except CollationError (List (AntLo × List FrequencyBand)) ×
      List (AntLo × FengUnit) :=
  (_get_antenna_tuning_band_info units tuning_map_freq,
   _disconnect_fengines units)

/-- The records the merger actually considers (`server.py` line 120:
`if header["valid"] and header["first"]`). -/
def firstValidHeaders (hs : List Header) : List Header :=
  hs.filter (fun h => h.valid && h.first)

/-- The channel width `stop - start` the finalizer computes for a segment
(`server.py` lines 136-137). -/
def detailWidth (d : FEnginePacketDestinationDetail) : Int :=
  d.end_chan + d.packet_nchan - d.start_chan

/-- Invariant of segments built from contiguous uniform runs: positive
packet size, a packet-aligned channel span and a monotone span. -/
def GoodDetail (d : FEnginePacketDestinationDetail) : Prop :=
  0 < d.packet_nchan ∧ d.packet_nchan ∣ (d.end_chan - d.start_chan) ∧
    d.start_chan ≤ d.end_chan

/-- The part of `GoodDetail` needed for ordering facts alone. -/
def PosDetail (d : FEnginePacketDestinationDetail) : Prop :=
  0 < d.packet_nchan ∧ d.start_chan ≤ d.end_chan

/-- Exact contiguity of consecutive merger records sharing a destination:
the later record starts exactly one packet after the earlier one and keeps
its packet size.  (Records with different destinations are unconstrained.) -/
def sameDestContig (r rp : Header) : Prop :=
  rp.dest = r.dest → (rp.chans = r.chans + r.n_chans ∧ rp.n_chans = r.n_chans)

/-- Spacing of consecutive merger records: the later record starts at or
after the end of the earlier record's packet, and keeps the packet size when
the destination repeats. -/
def spacedContig (r rp : Header) : Prop :=
  r.chans + r.n_chans ≤ rp.chans ∧ (rp.dest = r.dest → rp.n_chans = r.n_chans)

instance (r rp : Header) : Decidable (sameDestContig r rp) := by
  unfold sameDestContig
  infer_instance

instance (r rp : Header) : Decidable (spacedContig r rp) := by
  unfold spacedContig
  infer_instance

/-! ## Concrete fixtures used by scenario theorems, counterexamples and
witnesses -/

/-- Two valid first-headers with the same destination but a gap of one
packet between them (`chans` 0 and 16 with `n_chans = 8`): the merger
coalesces them although they are not adjacent. -/
def c6Headers : List Header :=
  [ { valid := true, first := true, dest := "10.0.0.1", chans := 0
      n_chans := 8, is_8_bit := true }
  , { valid := true, first := true, dest := "10.0.0.1", chans := 16
      n_chans := 8, is_8_bit := true } ]

/-- Two valid first-headers in ascending channel order (0 then 1) whose
packets overlap: the emitted subbands `(0,8)` and `(1,9)` overlap. -/
def c7Headers : List Header :=
  [ { valid := true, first := true, dest := "10.0.0.1", chans := 0
      n_chans := 8, is_8_bit := true }
  , { valid := true, first := true, dest := "10.0.0.2", chans := 1
      n_chans := 8, is_8_bit := true } ]

/-- The concrete header sequence of the C3 scenario. -/
def c3Headers : List Header :=
  [ { valid := true, first := true, dest := "10.0.0.1", chans := 0
      n_chans := 8, is_8_bit := true }
  , { valid := true, first := true, dest := "10.0.0.1", chans := 8
      n_chans := 8, is_8_bit := true }
  , { valid := true, first := true, dest := "10.0.0.2", chans := 16
      n_chans := 8, is_8_bit := true } ]

/-- A header run whose merged segment has width `18` with
`channels_per_packet = 8` (`18 % 8 = 2 ≠ 0`): the two records share a
destination but are not adjacent, so the merger coalesces them into one
inconsistent segment that the finalizer rejects. -/
def badHeaders : List Header :=
  [ { valid := true, first := true, dest := "10.0.0.1", chans := 0
      n_chans := 8, is_8_bit := true }
  , { valid := true, first := true, dest := "10.0.0.1", chans := 10
      n_chans := 8, is_8_bit := true } ]

/-- The collation error the finalizer reports for `badHeaders` on host
`h1`: operands `18` and `8`, quotient `18/8` (the non-integer `9/4`), kept
as the same cast-division term the finalizer builds. -/
def errBadH1 : CollationError :=
  { host := "h1", strm_nchans := 18, packet_nchan := 8
    n_strm := ((18 : Int) : ℚ) / ((8 : Int) : ℚ) }

/-- A unit whose single enabled interface reports `badHeaders`: its
collation raises the data-integrity error. -/
def unitFatal : FengUnit :=
  { host := "h1"
    interfaces := [{ ctrl := some 2, headers := some badHeaders }]
    fenchan := 1024, foff := 1, connected := true, disconnect_fails := false }

/-- A single well-formed stream header. -/
def hdr9 : List Header :=
  [ { valid := true, first := true, dest := "10.0.0.9", chans := 0
      n_chans := 8, is_8_bit := true } ]

/-- The subband collated from `hdr9`. -/
def sub9 : ChannelSubbandDestinationDetail :=
  { destination_ip := "10.0.0.9", start := 0, stop := 8
    nof_packet_streams := 1 }

/-- An enabled interface carrying `hdr9`. -/
def iface9 : InterfaceState := { ctrl := some 2, headers := some hdr9 }

/-- An enabled interface whose header query fails. -/
def ifaceHdrFail : InterfaceState := { ctrl := some 2, headers := none }

/-- A healthy unit with one enabled interface carrying a single
well-formed stream. -/
def unitNine : FengUnit :=
  { host := "h2", interfaces := [iface9]
    fenchan := 1024, foff := 1, connected := true, disconnect_fails := false }

/-- A unit whose first enabled interface reports the inconsistent
`badHeaders` and whose second enabled interface fails its header query: the
fatal error of the first interface pre-empts the unavailability signal of
the second. -/
def unitHdrFatal : FengUnit :=
  { host := "h3"
    interfaces := [{ ctrl := some 2, headers := some badHeaders }, ifaceHdrFail]
    fenchan := 1024, foff := 1, connected := true, disconnect_fails := false }

/-- The collation error `unitHdrFatal`'s first interface raises. -/
def errBadH3 : CollationError :=
  { host := "h3", strm_nchans := 18, packet_nchan := 8
    n_strm := ((18 : Int) : ℚ) / ((8 : Int) : ℚ) }

/-- A unit whose enabled-flag register cannot be read. -/
def unitCtrlNone : FengUnit :=
  { host := "h5", interfaces := [{ ctrl := none, headers := none }]
    fenchan := 1024, foff := 1, connected := true, disconnect_fails := false }

/-- A unit whose first enabled interface collates cleanly and whose second
enabled interface fails its header query: reported unavailable. -/
def unitHdrFail : FengUnit :=
  { host := "h4", interfaces := [iface9, ifaceHdrFail]
    fenchan := 1024, foff := 1, connected := true, disconnect_fails := false }

/-- The two subbands collated from `c3Headers`. -/
def c3Subbands : List ChannelSubbandDestinationDetail :=
  [ { destination_ip := "10.0.0.1", start := 0, stop := 16
      nof_packet_streams := 2 }
  , { destination_ip := "10.0.0.2", start := 16, stop := 24
      nof_packet_streams := 1 } ]

/-- A concrete (antenna, tuning) pair. -/
def antloA : AntLo := { antenna_name := "1a", lo_id := "a" }

/-- A second concrete (antenna, tuning) pair. -/
def antloB : AntLo := { antenna_name := "1b", lo_id := "b" }

/-! ## Theorems -/

/-- The quotient carried by `errBadH1` is the non-integer `9/4`. -/
theorem errBadH1_n_strm : errBadH1.n_strm = 9/4 := by
  norm_num [errBadH1]

/-- Claim C1: for every stream segment, the finalizer computes
`stop = last_seen_channel + channels_per_packet` and
`width = stop - start_channel`; it raises the fatal error (carrying the unit
identifier, the operands `width` and `channels_per_packet`, and the
non-integer quotient) if and only if `width % channels_per_packet ≠ 0`, and
otherwise emits the `ChannelSubband` with that start, that stop, and
`packet_stream_count = width / channels_per_packet`.  The divisor is assumed
nonzero (Python would raise `ZeroDivisionError` otherwise). -/
theorem finalizeDetail_spec (host : String) (d : FEnginePacketDestinationDetail)
    (hcpp : d.packet_nchan ≠ 0) :
    ((d.end_chan + d.packet_nchan - d.start_chan) % d.packet_nchan ≠ 0 →
      finalizeDetail host d = .error
        { host := host
          strm_nchans := d.end_chan + d.packet_nchan - d.start_chan
          packet_nchan := d.packet_nchan
          n_strm := ((d.end_chan + d.packet_nchan - d.start_chan : Int) : ℚ) /
            (d.packet_nchan : ℚ) }) ∧
    ((d.end_chan + d.packet_nchan - d.start_chan) % d.packet_nchan = 0 →
      finalizeDetail host d = .ok
        { destination_ip := d.destination_ip
          start := d.start_chan
          stop := d.end_chan + d.packet_nchan
          nof_packet_streams :=
            (d.end_chan + d.packet_nchan - d.start_chan) / d.packet_nchan }) := by
  constructor <;> intro h <;> simp [finalizeDetail, h]

/-- Witness for C1 at a concrete segment: `stop = 8 + 8 = 16`,
`width = 16`, `16 % 8 = 0`, so the finalizer emits the subband with two
packet streams. -/
theorem finalizeDetail_spec_witness :
    ((8 : Int) ≠ 0) ∧
    ((0 : Int) + 8 + 8 - 0) % 8 = 0 ∧
    finalizeDetail "frb-snap1"
      { destination_ip := "10.0.0.1", start_chan := 0, end_chan := 8
        packet_nchan := 8, is_8bit := true } =
      .ok { destination_ip := "10.0.0.1", start := 0, stop := 16
            nof_packet_streams := 2 } := by
  refine ⟨by decide, by decide, ?_⟩
  have h := (finalizeDetail_spec "frb-snap1"
    { destination_ip := "10.0.0.1", start_chan := 0, end_chan := 8
      packet_nchan := 8, is_8bit := true } (by decide)).2 (by decide)
  simpa using h

/-- Claim C3: for the scenario header sequence, the merger-plus-finalizer
pipeline for one interface emits exactly two subbands, in order:
`(10.0.0.1, start 0, stop 16, 2 streams)` and
`(10.0.0.2, start 16, stop 24, 1 stream)`. -/
theorem collate_c3_scenario :
    collateInterface "frb-snap1" c3Headers =
      .ok [ { destination_ip := "10.0.0.1", start := 0, stop := 16
              nof_packet_streams := 2 }
          , { destination_ip := "10.0.0.2", start := 16, stop := 24
              nof_packet_streams := 1 } ] := by
  rfl

/-- Claim C8: when the merger extends an open segment with a record whose
destination equals the segment's destination, the only field that changes is
`end_chan` (the spec's `last_seen_channel`), set to the record's start
channel; destination, start channel, `packet_nchan` and the bit-depth flag
keep their values, and the already-closed segments are untouched. -/
theorem mergeStep_extend_frame (last : FEnginePacketDestinationDetail)
    (closed : List FEnginePacketDestinationDetail) (h : Header)
    (hv : h.valid = true) (hf : h.first = true)
    (hdest : last.destination_ip = h.dest) :
    mergeStep (last :: closed) h = { last with end_chan := h.chans } :: closed ∧
    ({ last with end_chan := h.chans } : FEnginePacketDestinationDetail).destination_ip
      = last.destination_ip ∧
    ({ last with end_chan := h.chans } : FEnginePacketDestinationDetail).start_chan
      = last.start_chan ∧
    ({ last with end_chan := h.chans } : FEnginePacketDestinationDetail).packet_nchan
      = last.packet_nchan ∧
    ({ last with end_chan := h.chans } : FEnginePacketDestinationDetail).is_8bit
      = last.is_8bit ∧
    ({ last with end_chan := h.chans } : FEnginePacketDestinationDetail).end_chan
      = h.chans := by
  refine ⟨?_, rfl, rfl, rfl, rfl, rfl⟩
  simp [mergeStep, hv, hf, hdest]

/-- Witness for C8 at a concrete open segment and extending record. -/
theorem mergeStep_extend_frame_witness :
    (true = true ∧ true = true ∧ "10.0.0.1" = "10.0.0.1") ∧
    mergeStep
      [ { destination_ip := "10.0.0.1", start_chan := 0, end_chan := 0
          packet_nchan := 8, is_8bit := true } ]
      { valid := true, first := true, dest := "10.0.0.1", chans := 8
        n_chans := 4, is_8_bit := false } =
      [ { destination_ip := "10.0.0.1", start_chan := 0, end_chan := 8
          packet_nchan := 8, is_8bit := true } ] := by
  refine ⟨⟨rfl, rfl, rfl⟩, ?_⟩
  have h := (mergeStep_extend_frame
    { destination_ip := "10.0.0.1", start_chan := 0, end_chan := 0
      packet_nchan := 8, is_8bit := true } []
    { valid := true, first := true, dest := "10.0.0.1", chans := 8
      n_chans := 4, is_8_bit := false } rfl rfl rfl).1
  simpa using h

/-- Claim C2: the frequency mapper computes `center_channel = N/2` with
real-valued division, `band_center_chan = (stop-start)/2 + start + 0.5`,
`band_center_freq = f_LO + (band_center_chan - center_channel - 0.5)*Δf`,
`frequency_start = band_center_freq - Δf*(stop-start)/2`,
`frequency_stop = band_center_freq + Δf*(stop-start)/2`; in particular for
`N = 1024`, `Δf = 1`, `f_LO = 1000` and the single subband
`start = 0, stop = 1024` it yields `frequency_start = 488` and
`frequency_stop = 1512`. -/
theorem bandFrequencies_spec :
    (∀ (N Δf fLO : ℚ) (sb : ChannelSubbandDestinationDetail),
      (bandFrequencies N Δf fLO sb).1 =
        (fLO + ((((sb.stop : ℚ) - (sb.start : ℚ)) / 2 + (sb.start : ℚ) + 0.5)
          - N / 2 - 0.5) * Δf) - Δf * ((sb.stop : ℚ) - (sb.start : ℚ)) / 2 ∧
      (bandFrequencies N Δf fLO sb).2 =
        (fLO + ((((sb.stop : ℚ) - (sb.start : ℚ)) / 2 + (sb.start : ℚ) + 0.5)
          - N / 2 - 0.5) * Δf) + Δf * ((sb.stop : ℚ) - (sb.start : ℚ)) / 2) ∧
    bandFrequencies 1024 1 1000
      { destination_ip := "10.0.0.1", start := 0, stop := 1024
        nof_packet_streams := 128 } = (488, 1512) := by
  refine ⟨fun N Δf fLO sb => ⟨?_, ?_⟩, ?_⟩
  · simp only [bandFrequencies]
    push_cast
    ring
  · simp only [bandFrequencies]
    push_cast
    ring
  · norm_num [bandFrequencies]

/-- Counterexample to claim C4: with the failing unit `unitFatal` first and
the healthy unit `unitNine` second, the band-info collection returns the
raised error — the whole request aborts; the remaining pair, although
processable on its own (second conjunct), is neither processed nor is the
failure aggregated as a per-unit entry of an ok-result. -/
theorem band_info_aborts_on_fatal_cex :
    _get_antenna_tuning_band_info [(antloA, unitFatal), (antloB, unitNine)]
      (fun _ => 1000) = .error errBadH1 ∧
    read_chan_dest_ips unitNine = .ok (some [sub9]) := by
  exact ⟨rfl, rfl⟩

/-- The dict comprehension propagates the first fatal collation error: if
every unit before `u` is queried without an exception and `u`'s query raises
`e`, the whole collection raises `e`. -/
theorem collectChanbandDetails_append_fatal (us1 us2 : List (AntLo × FengUnit))
    (a : AntLo) (u : FengUnit) (e : CollationError)
    (h1 : ∀ p ∈ us1, ∃ r, read_chan_dest_ips p.2 = .ok r)
    (h2 : read_chan_dest_ips u = .error e) :
    collectChanbandDetails (us1 ++ (a, u) :: us2) = .error e := by
  induction us1 with
  | nil => simp [collectChanbandDetails, h2]
  | cons p t ih =>
    obtain ⟨r, hr⟩ := h1 p (by simp)
    have hrec := ih (fun q hq => h1 q (by simp [hq]))
    simp [collectChanbandDetails, hr, hrec]

/-- Claim C4, amended: a data-integrity error from the finalizer of one unit
is fatal for the whole band-info collection, not only for that unit: the
first such error propagates to the caller as the raised exception, the
remaining (antenna, tuning) pairs are not processed, and no per-unit
aggregation of the failure into an ok-result takes place (the caller sees
the raised error rather than a result list). -/
theorem band_info_fatal_propagates (us1 us2 : List (AntLo × FengUnit))
    (a : AntLo) (u : FengUnit) (e : CollationError) (freqs : String → ℚ)
    (h1 : ∀ p ∈ us1, ∃ r, read_chan_dest_ips p.2 = .ok r)
    (h2 : read_chan_dest_ips u = .error e) :
    _get_antenna_tuning_band_info (us1 ++ (a, u) :: us2) freqs = .error e := by
  simp [_get_antenna_tuning_band_info,
    collectChanbandDetails_append_fatal us1 us2 a u e h1 h2]

/-- Witness for the amended C4: the healthy unit first, the failing unit
second; the collection still returns the error of the failing unit. -/
theorem band_info_fatal_propagates_witness :
    (∀ p ∈ [(antloB, unitNine)], ∃ r, read_chan_dest_ips p.2 = .ok r) ∧
    read_chan_dest_ips unitFatal = .error errBadH1 ∧
    _get_antenna_tuning_band_info
      ([(antloB, unitNine)] ++ (antloA, unitFatal) :: []) (fun _ => 1000) =
        .error errBadH1 := by
  have h1 : ∀ p ∈ [(antloB, unitNine)], ∃ r, read_chan_dest_ips p.2 = .ok r := by
    intro p hp
    simp only [List.mem_singleton] at hp
    subst hp
    exact ⟨some [sub9], rfl⟩
  exact ⟨h1, rfl,
    band_info_fatal_propagates [(antloB, unitNine)] [] antloA unitFatal errBadH1
      (fun _ => 1000) h1 rfl⟩

/-- The teardown's effect on one map entry, in closed form. -/
theorem disconnect_one (p : AntLo × FengUnit) :
    (match fpga_disconnect p.2 with
      | .error _ => p
      | .ok u2 => (p.1, u2)) = tearDownOne p := by
  by_cases hd : p.2.disconnect_fails <;> simp [fpga_disconnect, tearDownOne, hd]

/-- Claim C9: hardware connections are released on every exit path of the
band-info request — on the success path (which includes units skipped as
unavailable) and on the fatal-error path alike — and the teardown itself
never raises: it is a total function that visits every unit in the map,
swallowing per-unit disconnect failures (a unit whose transport disconnect
fails is left as-is; every other unit ends up disconnected). -/
theorem teardown_on_all_paths (units : List (AntLo × FengUnit))
    (freqs : String → ℚ) :
    (∀ l, _get_antenna_tuning_band_info units freqs = .ok l →
      (get_observatory_bands units freqs).2 = units.map tearDownOne) ∧
    (∀ e, _get_antenna_tuning_band_info units freqs = .error e →
      (get_observatory_bands units freqs).2 = units.map tearDownOne) ∧
    _disconnect_fengines units = units.map tearDownOne := by
  have key : _disconnect_fengines units = units.map tearDownOne := by
    induction units with
    | nil => rfl
    | cons p t ih =>
      simp only [_disconnect_fengines, List.map_cons] at ih ⊢
      rw [disconnect_one p, ih]
  exact ⟨fun l _ => key, fun e _ => key, key⟩

/-- Witness for C9 at two concrete inputs: an empty map (success path) and
the failing unit (fatal path); both leave the map torn down. -/
theorem teardown_on_all_paths_witness :
    (_get_antenna_tuning_band_info [] (fun _ => 0) = .ok [] ∧
      (get_observatory_bands [] (fun _ => 0)).2 =
        ([] : List (AntLo × FengUnit)).map tearDownOne) ∧
    (_get_antenna_tuning_band_info [(antloA, unitFatal)] (fun _ => 0) =
        .error errBadH1 ∧
      (get_observatory_bands [(antloA, unitFatal)] (fun _ => 0)).2 =
        [(antloA, unitFatal)].map tearDownOne) := by
  refine ⟨⟨rfl, (teardown_on_all_paths [] (fun _ => 0)).1 [] rfl⟩,
    ⟨rfl, (teardown_on_all_paths [(antloA, unitFatal)] (fun _ => 0)).2.1
      errBadH1 rfl⟩⟩

/-- Counterexample to claim C5: `unitHdrFatal`'s second interface is
enabled and its header query fails, which by the claim should make the unit
unavailable without a fatal error; instead the first interface's collation
raises the data-integrity error, which propagates. -/
theorem read_fatal_beats_unavailable_cex :
    enabledBool ifaceHdrFail = true ∧
    ifaceHdrFail.headers = none ∧
    unitHdrFatal.interfaces =
      [{ ctrl := some 2, headers := some badHeaders }, ifaceHdrFail] ∧
    read_chan_dest_ips unitHdrFatal = .error errBadH3 := by
  exact ⟨rfl, rfl, rfl, rfl⟩

/-- The enabled-flag loop fails (returns `none`) exactly when some
interface's control register cannot be read. -/
theorem readEnabledFlags_eq_none (l : List InterfaceState) :
    readEnabledFlags l = none ↔ ∃ i ∈ l, i.ctrl = none := by
  induction l with
  | nil => simp [readEnabledFlags]
  | cons i rest ih =>
    cases hc : i.ctrl with
    | none =>
      simp only [readEnabledFlags, hc]
      exact iff_of_true (by trivial) ⟨i, List.mem_cons_self i rest, hc⟩
    | some c =>
      simp only [readEnabledFlags, hc]
      rw [Option.map_eq_none', ih]
      constructor
      · rintro ⟨j, hj, hjc⟩
        exact ⟨j, List.mem_cons_of_mem _ hj, hjc⟩
      · rintro ⟨j, hj, hjc⟩
        rcases List.mem_cons.mp hj with hji | hji
        · subst hji
          rw [hc] at hjc
          cases hjc
        · exact ⟨j, hji, hjc⟩

/-- When every control register is readable, the enabled-flag loop returns
each interface paired with its enabled flag, in order. -/
theorem readEnabledFlags_eq_some (l : List InterfaceState)
    (h : ∀ j ∈ l, j.ctrl ≠ none) :
    readEnabledFlags l = some (l.map (fun j => (j, enabledBool j))) := by
  induction l with
  | nil => rfl
  | cons i rest ih =>
    cases hc : i.ctrl with
    | none => exact absurd hc (h i (List.mem_cons_self i rest))
    | some c =>
      have hrec := ih (fun j hj => h j (List.mem_cons_of_mem _ hj))
      simp only [readEnabledFlags, hc, hrec, Option.map_some, List.map_cons]
      simp [enabledBool, hc]

/-- The interface loop reports the unit unavailable when it reaches an
enabled interface whose header query fails, provided every earlier enabled
interface was read and collated without an exception. -/
theorem readChanGo_unavailable (host : String) (pre : List InterfaceState)
    (i : InterfaceState) (post : List InterfaceState)
    (acc : List ChannelSubbandDestinationDetail)
    (hpre : ∀ j ∈ pre, enabledBool j = true →
      ∃ hs subs, j.headers = some hs ∧ collateInterface host hs = .ok subs)
    (hen : enabledBool i = true) (hhd : i.headers = none) :
    readChanGo host ((pre ++ i :: post).map (fun j => (j, enabledBool j))) acc =
      .ok none := by
  induction pre generalizing acc with
  | nil =>
    simp only [List.nil_append, List.map_cons]
    simp [readChanGo, hen, hhd]
  | cons j t ih =>
    simp only [List.cons_append, List.map_cons]
    cases hej : enabledBool j with
    | true =>
      obtain ⟨hs, subs, hjh, hcol⟩ := hpre j (List.mem_cons_self j t) hej
      simp only [readChanGo, if_pos rfl, hjh, hcol]
      exact ih (acc ++ subs) (fun q hq hq2 => hpre q (List.mem_cons_of_mem _ hq) hq2)
    | false =>
      simp only [readChanGo]
      rw [if_neg (by simp)]
      exact ih acc (fun q hq hq2 => hpre q (List.mem_cons_of_mem _ hq) hq2)

/-- Under exception-free unit queries, the dict comprehension succeeds and
returns each unit paired with its own result. -/
theorem collectChanbandDetails_ok (units : List (AntLo × FengUnit))
    (h : ∀ p ∈ units, ∃ r, read_chan_dest_ips p.2 = .ok r) :
    collectChanbandDetails units =
      .ok (units.map (fun p => (p, detailsOf p.2))) := by
  induction units with
  | nil => rfl
  | cons p t ih =>
    obtain ⟨r, hr⟩ := h p (List.mem_cons_self p t)
    have hrec := ih (fun q hq => h q (List.mem_cons_of_mem _ hq))
    have hd : detailsOf p.2 = r := by simp [detailsOf, hr]
    simp [collectChanbandDetails, hr, hrec, hd]

/-- Claim C5, amended: (1) if the enabled flag of any interface of a unit
cannot be determined, the whole unit is reported unavailable; (2) if the
header query of an enabled interface fails and every earlier enabled
interface was read and finalized without a collation error, the unit is
reported unavailable (without the extra proviso the claim is false: an
earlier interface's data-integrity error pre-empts the unavailability
signal); (3) an unavailable unit is omitted from the band-info output
without a fatal error, and — as long as no unit raises — every other pair is
processed and keeps its own result. -/
theorem unit_unavailable_spec :
    (∀ u : FengUnit, (∃ i ∈ u.interfaces, i.ctrl = none) →
      read_chan_dest_ips u = .ok none) ∧
    (∀ (u : FengUnit) (pre : List InterfaceState) (i : InterfaceState)
        (post : List InterfaceState),
      u.interfaces = pre ++ i :: post →
      (∀ j ∈ u.interfaces, j.ctrl ≠ none) →
      enabledBool i = true → i.headers = none →
      (∀ j ∈ pre, enabledBool j = true →
        ∃ hs subs, j.headers = some hs ∧ collateInterface u.host hs = .ok subs) →
      read_chan_dest_ips u = .ok none) ∧
    (∀ (units : List (AntLo × FengUnit)) (freqs : String → ℚ),
      (∀ p ∈ units, ∃ r, read_chan_dest_ips p.2 = .ok r) →
      _get_antenna_tuning_band_info units freqs =
        .ok (units.filterMap (fun p => bandEntry freqs p (detailsOf p.2)))) := by
  refine ⟨?_, ?_, ?_⟩
  · intro u hex
    unfold read_chan_dest_ips
    rw [(readEnabledFlags_eq_none u.interfaces).mpr hex]
  · intro u pre i post hsplit hctrl hen hhd hpre
    simp only [read_chan_dest_ips, readEnabledFlags_eq_some u.interfaces hctrl]
    rw [hsplit]
    have hmem : (i, enabledBool i) ∈
        (pre ++ i :: post).map (fun j => (j, enabledBool j)) :=
      List.mem_map_of_mem _
        (List.mem_append_right pre (List.mem_cons_self i post))
    have hall : ((pre ++ i :: post).map (fun j => (j, enabledBool j))).all
        (fun p => !p.2) = false := by
      rw [Bool.eq_false_iff]
      intro hallt
      have := List.all_eq_true.mp hallt (i, enabledBool i) hmem
      rw [hen] at this
      simp at this
    rw [if_neg (by simp only [hall]; simp)]
    exact readChanGo_unavailable u.host pre i post [] hpre hen hhd
  · intro units freqs h
    rw [_get_antenna_tuning_band_info, collectChanbandDetails_ok units h]
    simp only [List.filterMap_map]
    rfl

/-- Witness for the amended C5, discharging each part's hypotheses at a
concrete input: `unitCtrlNone` (unreadable enabled flag), `unitHdrFail`
(header query of the second enabled interface fails after a clean first
interface), and a two-unit map in which the unavailable unit is omitted
while the healthy unit is kept. -/
theorem unit_unavailable_spec_witness :
    ((∃ i ∈ unitCtrlNone.interfaces, i.ctrl = none) ∧
      read_chan_dest_ips unitCtrlNone = .ok none) ∧
    (unitHdrFail.interfaces = [iface9] ++ ifaceHdrFail :: [] ∧
      (∀ j ∈ unitHdrFail.interfaces, j.ctrl ≠ none) ∧
      enabledBool ifaceHdrFail = true ∧
      ifaceHdrFail.headers = none ∧
      read_chan_dest_ips unitHdrFail = .ok none) ∧
    ((∀ p ∈ [(antloB, unitNine), (antloA, unitCtrlNone)],
        ∃ r, read_chan_dest_ips p.2 = .ok r) ∧
      _get_antenna_tuning_band_info [(antloB, unitNine), (antloA, unitCtrlNone)]
        (fun _ => 1000) =
        .ok ([(antloB, unitNine), (antloA, unitCtrlNone)].filterMap
          (fun p => bandEntry (fun _ => 1000) p (detailsOf p.2)))) := by
  have hex : ∃ i ∈ unitCtrlNone.interfaces, i.ctrl = none := by
    exact ⟨{ ctrl := none, headers := none }, by simp [unitCtrlNone], rfl⟩
  have hpre : ∀ j ∈ [iface9], enabledBool j = true →
      ∃ hs subs, j.headers = some hs ∧ collateInterface unitHdrFail.host hs = .ok subs := by
    intro j hj _
    simp only [List.mem_singleton] at hj
    subst hj
    exact ⟨hdr9, [sub9], rfl, rfl⟩
  have hok : ∀ p ∈ [(antloB, unitNine), (antloA, unitCtrlNone)],
      ∃ r, read_chan_dest_ips p.2 = .ok r := by
    intro p hp
    rcases List.mem_cons.mp hp with hp1 | hp1
    · subst hp1
      exact ⟨some [sub9], rfl⟩
    · simp only [List.mem_singleton] at hp1
      subst hp1
      exact ⟨none, rfl⟩
  refine ⟨⟨hex, unit_unavailable_spec.1 unitCtrlNone hex⟩,
    ⟨rfl, by decide, rfl, rfl,
      unit_unavailable_spec.2.1 unitHdrFail [iface9] ifaceHdrFail [] rfl
        (by decide) rfl rfl hpre⟩,
    ⟨hok, unit_unavailable_spec.2.2 [(antloB, unitNine), (antloA, unitCtrlNone)]
      (fun _ => 1000) hok⟩⟩

/-- Counterexample to claim C6: the two `c6Headers` records (same
destination, non-adjacent) merge into one segment of width `24`, while the
sum of `channels_per_packet` over the merged records is `16`: channel
conservation fails on sequences with same-destination gaps. -/
theorem channel_conservation_cex :
    collateInterface "h6" c6Headers =
      .ok [ { destination_ip := "10.0.0.1", start := 0, stop := 24
              nof_packet_streams := 3 } ] ∧
    (([ { destination_ip := "10.0.0.1", start := 0, stop := 24
          nof_packet_streams := 3 } ] :
        List ChannelSubbandDestinationDetail).map
      (fun s => s.stop - s.start)).sum = 24 ∧
    ((firstValidHeaders c6Headers).map (fun r => r.n_chans)).sum = 16 ∧
    (24 : Int) ≠ 16 := by
  exact ⟨rfl, by decide, by decide, by decide⟩

/-- Counterexample to claim C7: the `c7Headers` records arrive in ascending
channel order (`0 < 1`), yet the two emitted subbands `(0,8)` and `(1,9)`
overlap (`8 ≰ 1`). -/
theorem subband_order_cex :
    List.Chain' (fun r rp => r.chans < rp.chans) (firstValidHeaders c7Headers) ∧
    collateInterface "h7" c7Headers =
      .ok [ { destination_ip := "10.0.0.1", start := 0, stop := 8
              nof_packet_streams := 1 }
          , { destination_ip := "10.0.0.2", start := 1, stop := 9
              nof_packet_streams := 1 } ] ∧
    ¬ List.Chain' (fun a b => a.stop ≤ b.start)
      [ ({ destination_ip := "10.0.0.1", start := 0, stop := 8
           nof_packet_streams := 1 } : ChannelSubbandDestinationDetail)
      , { destination_ip := "10.0.0.2", start := 1, stop := 9
          nof_packet_streams := 1 } ] := by
  refine ⟨?_, rfl, ?_⟩
  · simp [c7Headers, firstValidHeaders, List.chain'_cons]
  · simp [List.chain'_cons]

/-- The merger fold ignores records that are not valid first-headers: the
fold over a header sequence equals the fold over its valid-first filter. -/
theorem foldl_mergeStep_filter (hs : List Header)
    (acc : List FEnginePacketDestinationDetail) :
    hs.foldl mergeStep acc = (firstValidHeaders hs).foldl mergeStep acc := by
  induction hs generalizing acc with
  | nil => rfl
  | cons h t ih =>
    by_cases hv : (h.valid && h.first) = true
    · simp only [firstValidHeaders, List.filter_cons, hv, if_pos, List.foldl_cons]
      exact ih (mergeStep acc h)
    · have hstep : mergeStep acc h = acc := by
        simp [mergeStep, hv]
      simp only [firstValidHeaders, List.filter_cons, hv, List.foldl_cons,
        Bool.false_eq_true, if_false, hstep]
      exact ih acc

/-- The finalizer's success value is determined by the segment. -/
theorem finalizeDetail_ok_eq (host : String)
    (d : FEnginePacketDestinationDetail) (s : ChannelSubbandDestinationDetail)
    (h : finalizeDetail host d = .ok s) : s = subbandOf d := by
  simp only [finalizeDetail] at h
  split at h
  · exact Except.noConfusion h
  · rw [← Except.ok.injEq]
    exact h.symm

/-- Segments with packet-aligned spans all finalize successfully, and the
finalizer loop returns exactly their subbands in order. -/
theorem mapFinalize_ok_of_good (host : String)
    (L : List FEnginePacketDestinationDetail)
    (h : ∀ d ∈ L, GoodDetail d) :
    mapFinalize host L = .ok (L.map subbandOf) := by
  induction L with
  | nil => rfl
  | cons d ds ih =>
    have hd := h d (List.mem_cons_self d ds)
    have hdvd : (d.end_chan + d.packet_nchan - d.start_chan) % d.packet_nchan = 0 := by
      have hdv : d.packet_nchan ∣ (d.end_chan + d.packet_nchan - d.start_chan) := by
        have h2 : d.end_chan + d.packet_nchan - d.start_chan =
            (d.end_chan - d.start_chan) + d.packet_nchan := by ring
        rw [h2]
        exact dvd_add hd.2.1 dvd_rfl
      exact Int.emod_eq_zero_of_dvd hdv
    have hfin : finalizeDetail host d = .ok (subbandOf d) := by
      simp [finalizeDetail, hdvd, subbandOf]
    simp [mapFinalize, hfin, ih (fun x hx => h x (List.mem_cons_of_mem _ hx))]

/-- Whenever the finalizer loop succeeds, its output is the image of the
segments under `subbandOf`. -/
theorem mapFinalize_ok_map (host : String)
    (L : List FEnginePacketDestinationDetail)
    (subs : List ChannelSubbandDestinationDetail)
    (h : mapFinalize host L = .ok subs) : subs = L.map subbandOf := by
  induction L generalizing subs with
  | nil =>
    simp only [mapFinalize] at h
    rw [← Except.ok.injEq]
    exact h.symm
  | cons d ds ih =>
    simp only [mapFinalize] at h
    cases hfin : finalizeDetail host d with
    | error e => rw [hfin] at h; exact Except.noConfusion h
    | ok s =>
      rw [hfin] at h
      cases hrest : mapFinalize host ds with
      | error e => rw [hrest] at h; exact Except.noConfusion h
      | ok ss =>
        rw [hrest] at h
        have hs : s = subbandOf d := finalizeDetail_ok_eq host d s hfin
        have hss : ss = ds.map subbandOf := ih ss hrest
        simp only [Except.ok.injEq] at h
        rw [← h, hs, hss, List.map_cons]

/-- Non-overlap of consecutive subbands plus positive widths forces
strictly ascending starts. -/
theorem chain_start_lt (subs : List ChannelSubbandDestinationDetail)
    (h1 : List.Chain' (fun a b => a.stop ≤ b.start) subs)
    (h2 : ∀ s ∈ subs, s.start < s.stop) :
    List.Chain' (fun a b => a.start < b.start) subs := by
  induction subs with
  | nil => trivial
  | cons a l ih =>
    cases l with
    | nil => simp
    | cons b m =>
      rw [List.chain'_cons] at h1 ⊢
      exact ⟨lt_of_lt_of_le (h2 a (List.mem_cons_self a _)) h1.1,
        ih h1.2 (fun s hs => h2 s (List.mem_cons_of_mem _ hs))⟩

/-- Width bookkeeping of the merger fold: starting from an open segment `d`
linked to the last processed record `prev` and a list of closed segments,
processing an exactly-contiguous record run adds each record's
`channels_per_packet` to the total width, and every segment stays
packet-aligned. -/
theorem mergeFold_conserve (rs : List Header) (prev : Header)
    (d : FEnginePacketDestinationDetail)
    (closed : List FEnginePacketDestinationDetail)
    (hall : ∀ r ∈ rs, r.valid = true ∧ r.first = true)
    (hchain : List.Chain sameDestContig prev rs)
    (hpos : ∀ r ∈ rs, 0 < r.n_chans)
    (hend : d.end_chan = prev.chans)
    (hcpp : d.packet_nchan = prev.n_chans)
    (hdest : d.destination_ip = prev.dest)
    (hgood : GoodDetail d)
    (hclosed : ∀ x ∈ closed, GoodDetail x) :
    (∀ x ∈ rs.foldl mergeStep (d :: closed), GoodDetail x) ∧
    ((rs.foldl mergeStep (d :: closed)).map detailWidth).sum =
      ((d :: closed).map detailWidth).sum + (rs.map (fun r => r.n_chans)).sum := by
  induction rs generalizing prev d closed with
  | nil =>
    refine ⟨?_, by simp⟩
    intro x hx
    rcases List.mem_cons.mp hx with hx1 | hx1
    · subst hx1
      exact hgood
    · exact hclosed x hx1
  | cons r rest ih =>
    have hvr := hall r (List.mem_cons_self r rest)
    rw [List.chain_cons] at hchain
    by_cases hd : d.destination_ip = r.dest
    · obtain ⟨hch, hnc⟩ := hchain.1 (hd.symm.trans hdest)
      have hstep : (r :: rest).foldl mergeStep (d :: closed) =
          rest.foldl mergeStep ({ d with end_chan := r.chans } :: closed) := by
        have hms : mergeStep (d :: closed) r = { d with end_chan := r.chans } :: closed := by
          simp [mergeStep, hvr.1, hvr.2, hd]
        rw [List.foldl_cons, hms]
      have hgood2 : GoodDetail { d with end_chan := r.chans } := by
        refine ⟨hgood.1, ?_, ?_⟩
        · show d.packet_nchan ∣ (r.chans - d.start_chan)
          have h3 : r.chans - d.start_chan =
              (d.end_chan - d.start_chan) + d.packet_nchan := by
            omega
          rw [h3]
          exact dvd_add hgood.2.1 dvd_rfl
        · show d.start_chan ≤ r.chans
          have hse := hgood.2.2
          have hcp := hgood.1
          omega
      obtain ⟨ih1, ih2⟩ := ih r { d with end_chan := r.chans } closed
        (fun x hx => hall x (List.mem_cons_of_mem _ hx)) hchain.2
        (fun x hx => hpos x (List.mem_cons_of_mem _ hx)) rfl
        (hcpp.trans hnc.symm) hd hgood2 hclosed
      constructor
      · rw [hstep]
        exact ih1
      · rw [hstep, ih2]
        simp only [List.map_cons, List.sum_cons, detailWidth]
        omega
    · have hstep : (r :: rest).foldl mergeStep (d :: closed) =
          rest.foldl mergeStep (newDetail r :: d :: closed) := by
        have hms : mergeStep (d :: closed) r = newDetail r :: d :: closed := by
          simp [mergeStep, hvr.1, hvr.2, hd]
        rw [List.foldl_cons, hms]
      have hgoodn : GoodDetail (newDetail r) := by
        refine ⟨hpos r (List.mem_cons_self r rest), ?_, ?_⟩
        · show r.n_chans ∣ (r.chans - r.chans)
          simp
        · show r.chans ≤ r.chans
          exact le_rfl
      have hclosed2 : ∀ x ∈ d :: closed, GoodDetail x := by
        intro x hx
        rcases List.mem_cons.mp hx with hx1 | hx1
        · subst hx1
          exact hgood
        · exact hclosed x hx1
      obtain ⟨ih1, ih2⟩ := ih r (newDetail r) (d :: closed)
        (fun x hx => hall x (List.mem_cons_of_mem _ hx)) hchain.2
        (fun x hx => hpos x (List.mem_cons_of_mem _ hx)) rfl rfl rfl
        hgoodn hclosed2
      constructor
      · rw [hstep]
        exact ih1
      · rw [hstep, ih2]
        simp only [List.map_cons, List.sum_cons, detailWidth, newDetail]
        omega

/-- The merger output for a sequence whose valid first-headers form
exactly-contiguous uniform runs with positive packet sizes: every segment is
packet-aligned and the total width equals the sum of the records'
`channels_per_packet`. -/
theorem mergeHeaders_conserve (hs : List Header)
    (hchain : List.Chain' sameDestContig (firstValidHeaders hs))
    (hpos : ∀ r ∈ firstValidHeaders hs, 0 < r.n_chans) :
    (∀ x ∈ mergeHeaders hs, GoodDetail x) ∧
    ((mergeHeaders hs).map detailWidth).sum =
      ((firstValidHeaders hs).map (fun r => r.n_chans)).sum := by
  unfold mergeHeaders
  rw [foldl_mergeStep_filter hs []]
  cases hfv : firstValidHeaders hs with
  | nil => simp
  | cons r rest =>
    rw [hfv] at hchain hpos
    have hall : ∀ x ∈ r :: rest, x.valid = true ∧ x.first = true := by
      intro x hx
      have hmem : x ∈ firstValidHeaders hs := by
        rw [hfv]
        exact hx
      have hx2 := List.of_mem_filter hmem
      simpa [Bool.and_eq_true] using hx2
    have hvr := hall r (List.mem_cons_self r rest)
    have hstep : (r :: rest).foldl mergeStep [] = rest.foldl mergeStep [newDetail r] := by
      have hms : mergeStep [] r = [newDetail r] := by
        simp [mergeStep, hvr.1, hvr.2]
      rw [List.foldl_cons, hms]
    have hchain2 : List.Chain sameDestContig r rest := hchain
    have hgoodn : GoodDetail (newDetail r) := by
      refine ⟨hpos r (List.mem_cons_self r rest), ?_, ?_⟩
      · show r.n_chans ∣ (r.chans - r.chans)
        simp
      · show r.chans ≤ r.chans
        exact le_rfl
    obtain ⟨h1, h2⟩ := mergeFold_conserve rest r (newDetail r) []
      (fun x hx => hall x (List.mem_cons_of_mem _ hx)) hchain2
      (fun x hx => hpos x (List.mem_cons_of_mem _ hx)) rfl rfl rfl
      hgoodn (fun x hx => absurd hx (List.not_mem_nil x))
    constructor
    · intro x hx
      rw [List.mem_reverse] at hx
      rw [hstep] at hx
      exact h1 x hx
    · rw [hstep, List.map_reverse, List.sum_reverse, h2]
      simp only [List.map_cons, List.sum_cons, detailWidth, newDetail,
        List.map_nil, List.sum_nil]
      omega

/-- Claim C6, amended: channel conservation — the sum of `stop - start`
over the emitted subbands equals the sum of `channels_per_packet` over the
merged valid first-header records — holds for every header sequence whose
consecutive valid first-headers with equal destinations are exactly
contiguous with a uniform packet size, all packet sizes being positive.
(Unamended the claim is false: the merger coalesces non-adjacent
same-destination records, inflating the subband width.) -/
theorem channel_conservation (host : String) (hs : List Header)
    (hchain : List.Chain' sameDestContig (firstValidHeaders hs))
    (hpos : ∀ r ∈ firstValidHeaders hs, 0 < r.n_chans) :
    ∃ subs, collateInterface host hs = .ok subs ∧
      (subs.map (fun s => s.stop - s.start)).sum =
        ((firstValidHeaders hs).map (fun r => r.n_chans)).sum := by
  obtain ⟨hgood, hsum⟩ := mergeHeaders_conserve hs hchain hpos
  refine ⟨(mergeHeaders hs).map subbandOf,
    mapFinalize_ok_of_good host _ hgood, ?_⟩
  rw [List.map_map]
  have hcomp : ((fun s : ChannelSubbandDestinationDetail => s.stop - s.start) ∘ subbandOf)
      = detailWidth := by
    funext x
    simp only [Function.comp_apply, subbandOf, detailWidth]
  rw [hcomp, hsum]

/-- Witness for the amended C6 at the C3 scenario headers: contiguity and
positivity hold, and both sides of the conservation equation are defined. -/
theorem channel_conservation_witness :
    List.Chain' sameDestContig (firstValidHeaders c3Headers) ∧
    (∀ r ∈ firstValidHeaders c3Headers, 0 < r.n_chans) ∧
    ∃ subs, collateInterface "frb-snap1" c3Headers = .ok subs ∧
      (subs.map (fun s => s.stop - s.start)).sum =
        ((firstValidHeaders c3Headers).map (fun r => r.n_chans)).sum := by
  have hch : List.Chain' sameDestContig (firstValidHeaders c3Headers) := by
    simp [c3Headers, firstValidHeaders, List.chain'_cons, sameDestContig]
  have hpos : ∀ r ∈ firstValidHeaders c3Headers, 0 < r.n_chans := by
    decide
  exact ⟨hch, hpos, channel_conservation "frb-snap1" c3Headers hch hpos⟩

/-- Ordering bookkeeping of the merger fold: with spaced records, every
segment keeps a monotone span and positive packet size, and the (reversed)
accumulator stays sorted with gaps of at least one packet between runs. -/
theorem mergeFold_order (rs : List Header) (prev : Header)
    (d : FEnginePacketDestinationDetail)
    (closed : List FEnginePacketDestinationDetail)
    (hall : ∀ r ∈ rs, r.valid = true ∧ r.first = true)
    (hchain : List.Chain spacedContig prev rs)
    (hpos : ∀ r ∈ rs, 0 < r.n_chans)
    (hend : d.end_chan = prev.chans)
    (hcpp : d.packet_nchan = prev.n_chans)
    (hdest : d.destination_ip = prev.dest)
    (hgood : PosDetail d)
    (hclosed : ∀ x ∈ closed, PosDetail x)
    (horder : List.Chain'
      (fun a b => b.end_chan + b.packet_nchan ≤ a.start_chan) (d :: closed)) :
    (∀ x ∈ rs.foldl mergeStep (d :: closed), PosDetail x) ∧
    List.Chain' (fun a b => b.end_chan + b.packet_nchan ≤ a.start_chan)
      (rs.foldl mergeStep (d :: closed)) := by
  induction rs generalizing prev d closed with
  | nil =>
    refine ⟨?_, horder⟩
    intro x hx
    rcases List.mem_cons.mp hx with hx1 | hx1
    · subst hx1
      exact hgood
    · exact hclosed x hx1
  | cons r rest ih =>
    have hvr := hall r (List.mem_cons_self r rest)
    rw [List.chain_cons] at hchain
    obtain ⟨⟨hsp, hun⟩, hchain2⟩ := hchain
    by_cases hd : d.destination_ip = r.dest
    · have hnc : r.n_chans = prev.n_chans := hun (hd.symm.trans hdest)
      have hstep : (r :: rest).foldl mergeStep (d :: closed) =
          rest.foldl mergeStep ({ d with end_chan := r.chans } :: closed) := by
        have hms : mergeStep (d :: closed) r = { d with end_chan := r.chans } :: closed := by
          simp [mergeStep, hvr.1, hvr.2, hd]
        rw [List.foldl_cons, hms]
      have hgood2 : PosDetail { d with end_chan := r.chans } := by
        refine ⟨hgood.1, ?_⟩
        show d.start_chan ≤ r.chans
        have h1 := hgood.2
        have h2 := hgood.1
        omega
      have horder2 : List.Chain'
          (fun a b => b.end_chan + b.packet_nchan ≤ a.start_chan)
          ({ d with end_chan := r.chans } :: closed) := by
        cases closed with
        | nil => simp
        | cons c cs =>
          rw [List.chain'_cons] at horder ⊢
          exact ⟨horder.1, horder.2⟩
      obtain ⟨ih1, ih2⟩ := ih r { d with end_chan := r.chans } closed
        (fun x hx => hall x (List.mem_cons_of_mem _ hx)) hchain2
        (fun x hx => hpos x (List.mem_cons_of_mem _ hx)) rfl
        (hcpp.trans hnc.symm) hd hgood2 hclosed horder2
      refine ⟨?_, ?_⟩
      · rw [hstep]
        exact ih1
      · rw [hstep]
        exact ih2
    · have hstep : (r :: rest).foldl mergeStep (d :: closed) =
          rest.foldl mergeStep (newDetail r :: d :: closed) := by
        have hms : mergeStep (d :: closed) r = newDetail r :: d :: closed := by
          simp [mergeStep, hvr.1, hvr.2, hd]
        rw [List.foldl_cons, hms]
      have hgoodn : PosDetail (newDetail r) := by
        refine ⟨hpos r (List.mem_cons_self r rest), ?_⟩
        show r.chans ≤ r.chans
        exact le_rfl
      have hclosed2 : ∀ x ∈ d :: closed, PosDetail x := by
        intro x hx
        rcases List.mem_cons.mp hx with hx1 | hx1
        · subst hx1
          exact hgood
        · exact hclosed x hx1
      have horder2 : List.Chain'
          (fun a b => b.end_chan + b.packet_nchan ≤ a.start_chan)
          (newDetail r :: d :: closed) := by
        rw [List.chain'_cons]
        refine ⟨?_, horder⟩
        show d.end_chan + d.packet_nchan ≤ r.chans
        omega
      obtain ⟨ih1, ih2⟩ := ih r (newDetail r) (d :: closed)
        (fun x hx => hall x (List.mem_cons_of_mem _ hx)) hchain2
        (fun x hx => hpos x (List.mem_cons_of_mem _ hx)) rfl rfl rfl
        hgoodn hclosed2 horder2
      refine ⟨?_, ?_⟩
      · rw [hstep]
        exact ih1
      · rw [hstep]
        exact ih2

/-- The merger output for a spaced header sequence: every segment has a
monotone span and positive packet size, and consecutive segments (in
emission order) are separated by at least the closing packet. -/
theorem mergeHeaders_order (hs : List Header)
    (hchain : List.Chain' spacedContig (firstValidHeaders hs))
    (hpos : ∀ r ∈ firstValidHeaders hs, 0 < r.n_chans) :
    (∀ x ∈ mergeHeaders hs, PosDetail x) ∧
    List.Chain' (fun a b => a.end_chan + a.packet_nchan ≤ b.start_chan)
      (mergeHeaders hs) := by
  unfold mergeHeaders
  rw [foldl_mergeStep_filter hs []]
  cases hfv : firstValidHeaders hs with
  | nil => simp
  | cons r rest =>
    rw [hfv] at hchain hpos
    have hall : ∀ x ∈ r :: rest, x.valid = true ∧ x.first = true := by
      intro x hx
      have hmem : x ∈ firstValidHeaders hs := by
        rw [hfv]
        exact hx
      have hx2 := List.of_mem_filter hmem
      simpa [Bool.and_eq_true] using hx2
    have hvr := hall r (List.mem_cons_self r rest)
    have hstep : (r :: rest).foldl mergeStep [] = rest.foldl mergeStep [newDetail r] := by
      have hms : mergeStep [] r = [newDetail r] := by
        simp [mergeStep, hvr.1, hvr.2]
      rw [List.foldl_cons, hms]
    have hchain2 : List.Chain spacedContig r rest := hchain
    have hgoodn : PosDetail (newDetail r) := by
      refine ⟨hpos r (List.mem_cons_self r rest), ?_⟩
      show r.chans ≤ r.chans
      exact le_rfl
    obtain ⟨h1, h2⟩ := mergeFold_order rest r (newDetail r) []
      (fun x hx => hall x (List.mem_cons_of_mem _ hx)) hchain2
      (fun x hx => hpos x (List.mem_cons_of_mem _ hx)) rfl rfl rfl
      hgoodn (fun x hx => absurd hx (List.not_mem_nil x)) (by simp)
    constructor
    · intro x hx
      rw [List.mem_reverse] at hx
      rw [hstep] at hx
      exact h1 x hx
    · rw [hstep, List.chain'_reverse]
      exact h2

/-- Claim C7, amended: for every header sequence whose valid first-headers
are spaced — each consecutive record starts at or after the previous
record's channel plus its packet size, with a uniform packet size whenever
the destination repeats, and positive packet sizes — the subbands emitted
for the interface (whenever finalization succeeds) are non-overlapping
(each `stop` is at most the next `start`), have positive width, and are
produced in strictly ascending `start` order.  (With mere ascending channel
order the claim is false: packets may overrun the next record's start.) -/
theorem subbands_sorted_disjoint (host : String) (hs : List Header)
    (hchain : List.Chain' spacedContig (firstValidHeaders hs))
    (hpos : ∀ r ∈ firstValidHeaders hs, 0 < r.n_chans) :
    ∀ subs, collateInterface host hs = .ok subs →
      List.Chain' (fun a b => a.stop ≤ b.start) subs ∧
      (∀ s ∈ subs, s.start < s.stop) ∧
      List.Chain' (fun a b => a.start < b.start) subs := by
  intro subs hok
  obtain ⟨hposd, hchaind⟩ := mergeHeaders_order hs hchain hpos
  have hsubs : subs = (mergeHeaders hs).map subbandOf :=
    mapFinalize_ok_map host _ subs hok
  subst hsubs
  have hc1 : List.Chain' (fun a b => a.stop ≤ b.start)
      ((mergeHeaders hs).map subbandOf) := by
    rw [List.chain'_map]
    exact List.Chain'.imp (fun a b hab => by simpa [subbandOf] using hab) hchaind
  have hc2 : ∀ s ∈ (mergeHeaders hs).map subbandOf, s.start < s.stop := by
    intro s hsm
    obtain ⟨x, hx, rfl⟩ := List.mem_map.mp hsm
    obtain ⟨hp1, hp2⟩ := hposd x hx
    simp only [subbandOf]
    omega
  exact ⟨hc1, hc2, chain_start_lt _ hc1 hc2⟩

/-- Witness for the amended C7 at the C3 scenario headers: the spacing
hypotheses hold, finalization succeeds, and the two subbands are disjoint
and strictly ascending. -/
theorem subbands_sorted_disjoint_witness :
    List.Chain' spacedContig (firstValidHeaders c3Headers) ∧
    (∀ r ∈ firstValidHeaders c3Headers, 0 < r.n_chans) ∧
    collateInterface "frb-snap1" c3Headers = .ok c3Subbands ∧
    (List.Chain' (fun a b => a.stop ≤ b.start) c3Subbands ∧
      (∀ s ∈ c3Subbands, s.start < s.stop) ∧
      List.Chain' (fun a b => a.start < b.start) c3Subbands) := by
  have hch : List.Chain' spacedContig (firstValidHeaders c3Headers) := by
    simp [c3Headers, firstValidHeaders, List.chain'_cons, spacedContig]
  have hpos : ∀ r ∈ firstValidHeaders c3Headers, 0 < r.n_chans := by
    decide
  have hok : collateInterface "frb-snap1" c3Headers = .ok c3Subbands := rfl
  exact ⟨hch, hpos, hok,
    subbands_sorted_disjoint "frb-snap1" c3Headers hch hpos c3Subbands hok⟩

/-- Claim C10: the value-type tagger is total and deterministic (it is a
function) and satisfies exactly: strings are tagged `"string"`; booleans are
tagged `"u32"` even though they satisfy Python's integer test (the boolean
branch precedes the integer branch); negative integers are tagged `"i64"`;
non-negative integers `"u64"`; everything else `"f64"`. -/
theorem value_type_spec :
    (∀ s, _value_type (.str s) = "string") ∧
    (∀ b, _value_type (.bool b) = "u32" ∧ isinstanceInt (.bool b) = true) ∧
    (∀ i : Int, i < 0 → _value_type (.int i) = "i64") ∧
    (∀ i : Int, 0 ≤ i → _value_type (.int i) = "u64") ∧
    (∀ q, _value_type (.float q) = "f64") := by
  refine ⟨fun s => rfl, fun b => ⟨rfl, rfl⟩, fun i hi => ?_, fun i hi => ?_, fun q => rfl⟩
  · simp [_value_type, isinstanceStr, isinstanceBool, isinstanceInt, pyIntVal, hi]
  · simp [_value_type, isinstanceStr, isinstanceBool, isinstanceInt, pyIntVal,
      not_lt.mpr hi]

/-- Witness for C10 at concrete integers of each sign. -/
theorem value_type_spec_witness :
    ((-5 : Int) < 0 ∧ _value_type (.int (-5)) = "i64") ∧
    ((0 : Int) ≤ 7 ∧ _value_type (.int 7) = "u64") := by
  refine ⟨⟨by decide, value_type_spec.2.2.1 (-5) (by decide)⟩,
    ⟨by decide, value_type_spec.2.2.2.1 7 (by decide)⟩⟩

end NexusOtl
